import Mathlib

/-!
Formal model of the two MNIST training scripts (classifier `src/unnamed/part_000`
and autoencoder `src/autoencoder/main.go`) of this repository.

Modelling conventions:
* `float64` values are modelled as `ℚ`.  Every property proved here concerns
  clamping, ordering, counting or control flow; for those the rational model
  agrees with IEEE float64 (the constants `0.01`, `0.99`, `255` and the offsets
  involved keep every comparison far from rounding boundaries, and rounding of
  a product by a positive constant is monotone).
* Go's conversion `byte(v)` of a `float64` is modelled as truncation toward
  zero to an integer followed by taking the value modulo 256, which is the
  behaviour of the compiled code on the mainstream targets (amd64: `CVTTSD2SI`
  to a 64-bit register, then the low byte).
* The external gorgonia/tensor library is out of scope per the spec; where a
  claim depends on it, its operations appear as opaque-but-deterministic
  function parameters of the theorem, never as stubs of in-repo code.
-/

namespace StartDL

/-! ### Pixel visualization
`reversePixelWeight` appears identically in both programs
(`src/unnamed/part_000` lines 134-139, `src/autoencoder/main.go` lines 142-147):

    const pixelRange = 255
    func reversePixelWeight(px float64) byte {
        return byte(pixelRange*math.Min(0.99, math.Max(0.01, px)) - pixelRange)
    }
-/

def pixelRange : ℚ := 255

/-- Truncation toward zero of a rational, the integer part of Go's
float-to-integer conversion. -/
def ratTrunc (q : ℚ) : Int := if 0 ≤ q then ⌊q⌋ else ⌈q⌉

/-- Go's `byte(v)` conversion of a float value on amd64: truncate toward zero,
then keep the low 8 bits (two's complement). -/
def byteOfFloat (q : ℚ) : Nat := ((ratTrunc q) % 256).toNat

/-- `reversePixelWeight` from both `main.go` files, verbatim:
`byte(pixelRange*math.Min(0.99, math.Max(0.01, px)) - pixelRange)`. -/
def reversePixelWeight (px : ℚ) : Nat :=
  byteOfFloat (pixelRange * min (99/100) (max (1/100) px) - pixelRange)

/-- The clamped value always lands in `[1/100, 99/100]`. -/
lemma clamp_mem (px : ℚ) :
    1/100 ≤ min (99/100) (max (1/100) px) ∧
      min (99/100) (max (1/100) px) ≤ 99/100 := by
  constructor
  · exact le_min (by norm_num) (le_max_left _ _)
  · exact min_le_left _ _

/-- Clamping twice is the same as clamping once. -/
lemma clamp_idem (px : ℚ) :
    min (99/100) (max (1/100) (min (99/100) (max (1/100) px)))
      = min (99/100) (max (1/100) px) := by
  rw [max_eq_right (clamp_mem px).1, min_eq_right (clamp_mem px).2]

/-- For any clamped value `c ∈ [1/100, 99/100]`, the float fed to the byte
conversion is negative, and its truncation (here: ceiling) lies in
`[-252, -2]`. -/
lemma trunc_scaled_bounds {c : ℚ} (h1 : 1/100 ≤ c) (h2 : c ≤ 99/100) :
    -252 ≤ ⌈pixelRange * c - pixelRange⌉ ∧ ⌈pixelRange * c - pixelRange⌉ ≤ -2 := by
  have hlo : (-253 : ℚ) < pixelRange * c - pixelRange := by
    have : (255 : ℚ) * (1/100) ≤ 255 * c := by nlinarith
    unfold pixelRange; nlinarith
  have hhi : pixelRange * c - pixelRange ≤ -51/20 := by
    have : (255 : ℚ) * c ≤ 255 * (99/100) := by nlinarith
    unfold pixelRange; nlinarith
  constructor
  · have h := Int.lt_ceil.mpr (show ((-253 : Int) : ℚ) < pixelRange * c - pixelRange by
      push_cast; linarith)
    omega
  · calc ⌈pixelRange * c - pixelRange⌉ ≤ ⌈(-51/20 : ℚ)⌉ := Int.ceil_le_ceil hhi
      _ = -2 := by rw [Int.ceil_eq_iff]; constructor <;> norm_num

/-- The scaled clamped value is negative, so `ratTrunc` takes the ceiling
branch. -/
lemma ratTrunc_scaled {c : ℚ} (_h1 : 1/100 ≤ c) (h2 : c ≤ 99/100) :
    ratTrunc (pixelRange * c - pixelRange) = ⌈pixelRange * c - pixelRange⌉ := by
  have hneg : pixelRange * c - pixelRange < 0 := by
    have : (255 : ℚ) * c ≤ 255 * (99/100) := by nlinarith
    unfold pixelRange; nlinarith
  unfold ratTrunc
  rw [if_neg (by linarith)]

/-- `% 256` of an integer in `[-256, -1]` just adds 256. -/
lemma emod_256_of_neg {a : Int} (h1 : -256 ≤ a) (h2 : a < 0) :
    a % 256 = a + 256 := by
  have h : (a + 256 * 1) % 256 = a % 256 := Int.add_mul_emod_self_left a 256 1
  rw [show a + 256 * 1 = a + 256 by ring] at h
  rw [← h, Int.emod_eq_of_lt (by omega) (by omega)]

/-- Closed form on clamped inputs: the byte is `⌈255c - 255⌉ + 256`. -/
lemma reversePixelWeight_closed {c : ℚ} (h1 : 1/100 ≤ c) (h2 : c ≤ 99/100) :
    reversePixelWeight c = (⌈pixelRange * c - pixelRange⌉ + 256).toNat := by
  unfold reversePixelWeight byteOfFloat
  rw [max_eq_right h1, min_eq_right h2, ratTrunc_scaled h1 h2]
  obtain ⟨hl, hh⟩ := trunc_scaled_bounds h1 h2
  rw [emod_256_of_neg (by omega) (by omega)]

/-- Every input reduces to the closed form applied to its clamped value. -/
lemma reversePixelWeight_eq_closed (px : ℚ) :
    reversePixelWeight px
      = (⌈pixelRange * (min (99/100) (max (1/100) px)) - pixelRange⌉ + 256).toNat := by
  have h := clamp_mem px
  have hstep : reversePixelWeight px
      = reversePixelWeight (min (99/100) (max (1/100) px)) := by
    unfold reversePixelWeight
    rw [clamp_idem]
  rw [hstep, reversePixelWeight_closed h.1 h.2]

/-- Any output of `byteOfFloat` fits in a byte. -/
lemma byteOfFloat_le (q : ℚ) : byteOfFloat q ≤ 255 := by
  unfold byteOfFloat
  have h1 : 0 ≤ (ratTrunc q) % 256 := Int.emod_nonneg _ (by norm_num)
  have h2 : (ratTrunc q) % 256 < 256 := Int.emod_lt_of_pos _ (by norm_num)
  omega

/-- Concrete evaluation: `reversePixelWeight 0.5 = 129`
(0.5 is not clamped; `255*0.5 - 255 = -127.5` truncates to `-127`; low byte 129). -/
lemma rpw_half : reversePixelWeight (1/2) = 129 := by
  rw [reversePixelWeight_eq_closed]
  rw [max_eq_right (by norm_num), min_eq_right (by norm_num)]
  rw [show pixelRange * (1/2 : ℚ) - pixelRange = -(255/2) by unfold pixelRange; norm_num]
  rw [show ⌈-(255/2 : ℚ)⌉ = -127 by rw [Int.ceil_eq_iff]; constructor <;> norm_num]
  decide

/-- Concrete evaluation: `reversePixelWeight 129 = 254`
(129 clamps to 0.99; `255*0.99 - 255 = -2.55` truncates to `-2`; low byte 254). -/
lemma rpw_129 : reversePixelWeight (129 : ℚ) = 254 := by
  rw [reversePixelWeight_eq_closed]
  rw [max_eq_right (by norm_num), min_eq_left (by norm_num)]
  rw [show pixelRange * (99/100 : ℚ) - pixelRange = -(51/20) by unfold pixelRange; norm_num]
  rw [show ⌈-(51/20 : ℚ)⌉ = -2 by rw [Int.ceil_eq_iff]; constructor <;> norm_num]
  decide

/-- **C2.** `reversePixelWeight` first clamps its argument to `[0.01, 0.99]`
(its value on any input equals its value on the clamped input) and always
returns a valid 8-bit pixel value (at most 255), for out-of-range and
saturated activations included. -/
theorem c2_reversePixelWeight_clamps_and_fits_byte (px : ℚ) :
    reversePixelWeight px = reversePixelWeight (min (99/100) (max (1/100) px)) ∧
      reversePixelWeight px ≤ 255 := by
  constructor
  · unfold reversePixelWeight
    rw [clamp_idem]
  · exact byteOfFloat_le _

/-- **C3, counterexample.** The pixel mapping is not idempotent on its own
outputs: `reversePixelWeight 0.5 = 129`, but feeding the byte 129 back in
yields 254, not 129. -/
theorem c3_counterexample_not_idempotent :
    reversePixelWeight ((reversePixelWeight (1/2) : ℕ) : ℚ) ≠ reversePixelWeight (1/2) := by
  rw [rpw_half]
  rw [show (((129 : ℕ) : ℚ)) = (129 : ℚ) by norm_num]
  rw [rpw_129]
  decide

/-- **C3, amended.** The clamping stage is idempotent — the byte produced for
a clamped value equals the byte produced for the raw value — and the mapping
is monotonic: for activations `a ≤ b` both within `[0.01, 0.99]`, the pixel
byte for `b` is at least the pixel byte for `a`.  (The byte-valued mapping
itself is not idempotent, see the counterexample.) -/
theorem c3_clamp_idempotent_and_monotone :
    (∀ px : ℚ, reversePixelWeight (min (99/100) (max (1/100) px))
        = reversePixelWeight px) ∧
      ∀ a b : ℚ, 1/100 ≤ a → a ≤ b → b ≤ 99/100 →
        reversePixelWeight a ≤ reversePixelWeight b := by
  constructor
  · intro px
    unfold reversePixelWeight
    rw [clamp_idem]
  · intro a b h1 h2 h3
    rw [reversePixelWeight_closed h1 (le_trans h2 h3),
        reversePixelWeight_closed (le_trans h1 h2) h3]
    have hc : ⌈pixelRange * a - pixelRange⌉ ≤ ⌈pixelRange * b - pixelRange⌉ := by
      apply Int.ceil_le_ceil
      unfold pixelRange
      nlinarith
    exact Int.toNat_le_toNat (by omega)

/-- Witness for C3 (amended): concrete instances of both conjuncts. -/
theorem c3_witness :
    reversePixelWeight (min (99/100) (max (1/100) (1/2))) = reversePixelWeight (1/2) ∧
      reversePixelWeight (1/4) ≤ reversePixelWeight (1/2) :=
  ⟨c3_clamp_idempotent_and_monotone.1 (1/2),
   c3_clamp_idempotent_and_monotone.2 (1/4) (1/2) (by norm_num) (by norm_num) (by norm_num)⟩

/-! ### Batch schedule
Both the training loop and the evaluation loop of both programs iterate

    batches := numExamples / bs
    for b := 0; b < batches; b++ {
        start := b * bs
        end := start + bs
        if start >= numExamples { break }
        if end > numExamples { end = numExamples }
        ... slice [start, end) ...
    }

(`src/unnamed/part_000` lines 203, 213-221 and 270, 278-286;
`src/autoencoder/main.go` lines 208, 218-226 and 266, 275-283).
`collectBatches` transcribes one run of that loop, fuel = the remaining
iterations of `b`. -/

def collectBatches (numExamples bs : Nat) : Nat → Nat → List (Nat × Nat)
  | 0, _ => []
  | fuel+1, b =>
    let start := b * bs
    if numExamples ≤ start then []
    else
      let e := start + bs
      let e := if numExamples < e then numExamples else e
      (start, e) :: collectBatches numExamples bs fuel (b+1)

/-- The `[start, end)` pairs the batch loops actually process, for a dataset of
`numExamples` rows and batch size `bs`. -/
def batchSchedule (numExamples bs : Nat) : List (Nat × Nat) :=
  collectBatches numExamples bs (numExamples / bs) 0

/-- As long as every scheduled batch still fits (`(b + fuel) * bs ≤ N`), the
`break` and the `end`-clamp never fire and the loop emits exactly the full
batches in index order. -/
lemma collectBatches_full {N B : Nat} (hB : 0 < B) :
    ∀ fuel b, (b + fuel) * B ≤ N →
      collectBatches N B fuel b
        = (List.range fuel).map (fun i => ((b + i) * B, (b + i) * B + B)) := by
  intro fuel
  induction fuel with
  | zero => intro b _; rfl
  | succ n ih =>
    intro b hb
    have hfit : b * B + B ≤ N := by
      have h1 : (b + 1) * B ≤ (b + (n + 1)) * B := Nat.mul_le_mul_right _ (by omega)
      calc b * B + B = (b + 1) * B := by ring
        _ ≤ N := le_trans h1 hb
    have hlt : b * B < N := by omega
    rw [collectBatches]
    simp only [if_neg (by omega : ¬ N ≤ b * B), if_neg (by omega : ¬ N < b * B + B)]
    rw [ih (b + 1) (by calc (b + 1 + n) * B = (b + (n + 1)) * B := by ring
          _ ≤ N := hb)]
    rw [List.range_succ_eq_map, List.map_cons, List.map_map]
    refine congrArg₂ _ (by simp) ?_
    apply List.map_congr_left
    intro i _
    simp only [Function.comp_apply]
    have : b + 1 + i = b + i.succ := by omega
    rw [this]

/-- **C1.** For every dataset size `N` and batch size `B > 0`, the loop
processes exactly `⌊N/B⌋` batches; batch `i` is exactly `[i*B, i*B + B)` (so
every batch has exactly `B` examples, in index order, and slicing then
reshaping to `B` rows cannot fail); and no processed batch reaches past
`⌊N/B⌋ * B`, so the trailing `N mod B` examples are never fed to the graph. -/
theorem c1_full_batches_only (N B : Nat) (hB : 0 < B) :
    batchSchedule N B = (List.range (N / B)).map (fun i => (i * B, i * B + B)) ∧
      (batchSchedule N B).length = N / B ∧
      (∀ p ∈ batchSchedule N B, p.2 - p.1 = B ∧ p.2 ≤ N / B * B) ∧
      ∀ idx, N / B * B ≤ idx → ∀ p ∈ batchSchedule N B, ¬ (p.1 ≤ idx ∧ idx < p.2) := by
  have hsched : batchSchedule N B
      = (List.range (N / B)).map (fun i => (i * B, i * B + B)) := by
    unfold batchSchedule
    rw [collectBatches_full hB (N / B) 0 (by simpa using Nat.div_mul_le_self N B)]
    simp
  have hmem : ∀ p ∈ batchSchedule N B, p.2 - p.1 = B ∧ p.2 ≤ N / B * B := by
    intro p hp
    rw [hsched] at hp
    obtain ⟨i, hi, rfl⟩ := List.mem_map.mp hp
    have hiN : i < N / B := List.mem_range.mp hi
    constructor
    · simp
    · have : (i + 1) * B ≤ N / B * B := Nat.mul_le_mul_right _ (by omega)
      simpa [Nat.add_mul] using this
  refine ⟨hsched, ?_, hmem, ?_⟩
  · rw [hsched]; simp
  · intro idx hidx p hp hcontra
    have h2 := (hmem p hp).2
    omega

/-- Witness for C1 at `N = 250`, `B = 100`: two full batches, examples
200-249 never processed. -/
theorem c1_witness :
    0 < 100 ∧ batchSchedule 250 100 = [(0, 100), (100, 200)] := by
  refine ⟨by decide, ?_⟩
  rw [(c1_full_batches_only 250 100 (by decide)).1]
  decide

/-! ### Training loop error handling
Per training batch the classifier runs (`src/unnamed/part_000` lines 223-240;
the autoencoder, lines 228-241, is the same minus the `y` slice):

    if xVal, err = inputs.Slice(...);  err != nil { log.Fatal(...) }
    if yVal, err = targets.Slice(...); err != nil { log.Fatal(...) }
    if err = xVal.(*tensor.Dense).Reshape(bs, 784); err != nil { log.Fatalf(...) }
    ...
    if err = vm.RunAll(); err != nil { log.Fatalf(...) }

`log.Fatal` prints and calls `os.Exit(1)`.  Whether an external call fails is
environment-determined; we model the environment as a predicate
`stageFails : epoch → batch → Stage → Bool` and the `err != nil` ladder as
`firstFailure`. -/

inductive Stage
  | sliceX
  | sliceY
  | reshape
  | runAll
deriving DecidableEq

/-- The first stage of a batch whose `err != nil` check fires, in the order
the code performs them. -/
def firstFailure (fails : Stage → Bool) : Option Stage :=
  if fails Stage.sliceX then some Stage.sliceX
  else if fails Stage.sliceY then some Stage.sliceY
  else if fails Stage.reshape then some Stage.reshape
  else if fails Stage.runAll then some Stage.runAll
  else none

/-- Inner batch loop of one epoch `i`: processes batches `b, b+1, ...` until
the fuel (remaining iterations) runs out or a stage fails, in which case
`log.Fatal` stops everything on the spot.  Returns the successfully completed
(epoch, batch) pairs and the fatal event, if any. -/
def runEpochBatches (stageFails : Nat → Nat → Stage → Bool) (i : Nat) :
    Nat → Nat → List (Nat × Nat) × Option (Nat × Nat × Stage)
  | 0, _ => ([], none)
  | fuel+1, b =>
    match firstFailure (stageFails i b) with
    | some s => ([], some (i, b, s))
    | none =>
      let r := runEpochBatches stageFails i fuel (b+1)
      ((i, b) :: r.1, r.2)

/-- Outer epoch loop: epochs `i, i+1, ...` while fuel remains, aborting at the
first fatal batch. -/
def runEpochs (stageFails : Nat → Nat → Stage → Bool) (batches : Nat) :
    Nat → Nat → List (Nat × Nat) × Option (Nat × Nat × Stage)
  | 0, _ => ([], none)
  | fuel+1, i =>
    let e := runEpochBatches stageFails i batches 0
    match e.2 with
    | some f => (e.1, some f)
    | none =>
      let r := runEpochs stageFails batches fuel (i+1)
      (e.1 ++ r.1, r.2)

/-- Result of the whole training loop: completed batches, the fatal event (if
any), and the process exit code (`log.Fatal` exits with status 1). -/
structure TrainOutcome where
  processed : List (Nat × Nat)
  fatal : Option (Nat × Nat × Stage)
  exitCode : Nat
deriving DecidableEq

def runTraining (stageFails : Nat → Nat → Stage → Bool) (epochs batches : Nat) :
    TrainOutcome :=
  let r := runEpochs stageFails batches epochs 0
  { processed := r.1
    fatal := r.2
    exitCode := match r.2 with | some _ => 1 | none => 0 }

lemma firstFailure_fails {fails : Stage → Bool} {s : Stage}
    (h : firstFailure fails = some s) : fails s = true := by
  unfold firstFailure at h
  by_cases h1 : fails Stage.sliceX = true
  · simp [h1] at h; exact h ▸ h1
  · by_cases h2 : fails Stage.sliceY = true
    · simp [h1, h2] at h; exact h ▸ h2
    · by_cases h3 : fails Stage.reshape = true
      · simp [h1, h2, h3] at h; exact h ▸ h3
      · by_cases h4 : fails Stage.runAll = true
        · simp [h1, h2, h3, h4] at h; exact h ▸ h4
        · simp [h1, h2, h3, h4] at h

lemma runEpochBatches_spec (stageFails : Nat → Nat → Stage → Bool) (i : Nat) :
    ∀ fuel b,
      (∀ p ∈ (runEpochBatches stageFails i fuel b).1, p.1 = i ∧ b ≤ p.2) ∧
      ∀ f, (runEpochBatches stageFails i fuel b).2 = some f →
        f.1 = i ∧ b ≤ f.2.1 ∧ firstFailure (stageFails i f.2.1) = some f.2.2 ∧
          ∀ p ∈ (runEpochBatches stageFails i fuel b).1, p.2 < f.2.1 := by
  intro fuel
  induction fuel with
  | zero =>
    intro b
    refine ⟨by simp [runEpochBatches], ?_⟩
    intro f hf
    simp [runEpochBatches] at hf
  | succ n ih =>
    intro b
    cases hff : firstFailure (stageFails i b) with
    | some s =>
      refine ⟨?_, ?_⟩
      · intro p hp
        simp [runEpochBatches, hff] at hp
      · intro f hf
        simp [runEpochBatches, hff] at hf
        subst hf
        refine ⟨rfl, le_refl _, hff, ?_⟩
        intro p hp
        simp [runEpochBatches, hff] at hp
    | none =>
      have hmem : (runEpochBatches stageFails i (n+1) b).1
          = (i, b) :: (runEpochBatches stageFails i n (b+1)).1 := by
        simp [runEpochBatches, hff]
      have hfat : (runEpochBatches stageFails i (n+1) b).2
          = (runEpochBatches stageFails i n (b+1)).2 := by
        simp [runEpochBatches, hff]
      refine ⟨?_, ?_⟩
      · intro p hp
        rw [hmem] at hp
        rcases List.mem_cons.mp hp with h | h
        · subst h; exact ⟨rfl, le_refl _⟩
        · obtain ⟨h1, h2⟩ := ((ih (b+1)).1) p h
          exact ⟨h1, by omega⟩
      · intro f hf
        rw [hfat] at hf
        obtain ⟨h1, h2, h3, h4⟩ := ((ih (b+1)).2) f hf
        refine ⟨h1, by omega, h3, ?_⟩
        intro p hp
        rw [hmem] at hp
        rcases List.mem_cons.mp hp with h | h
        · subst h; simpa using h2
        · exact h4 p h

lemma runEpochs_spec (stageFails : Nat → Nat → Stage → Bool) (batches : Nat) :
    ∀ fuel i,
      (∀ p ∈ (runEpochs stageFails batches fuel i).1, i ≤ p.1) ∧
      ∀ f, (runEpochs stageFails batches fuel i).2 = some f →
        i ≤ f.1 ∧ firstFailure (stageFails f.1 f.2.1) = some f.2.2 ∧
          ∀ p ∈ (runEpochs stageFails batches fuel i).1,
            p.1 < f.1 ∨ (p.1 = f.1 ∧ p.2 < f.2.1) := by
  intro fuel
  induction fuel with
  | zero =>
    intro i
    refine ⟨by simp [runEpochs], ?_⟩
    intro f hf
    simp [runEpochs] at hf
  | succ n ih =>
    intro i
    have hbspec := runEpochBatches_spec stageFails i batches 0
    cases hfe : (runEpochBatches stageFails i batches 0).2 with
    | some f0 =>
      have hmem : (runEpochs stageFails batches (n+1) i).1
          = (runEpochBatches stageFails i batches 0).1 := by
        simp [runEpochs, hfe]
      have hfat : (runEpochs stageFails batches (n+1) i).2 = some f0 := by
        simp [runEpochs, hfe]
      obtain ⟨hf1, _, hf3, hf4⟩ := hbspec.2 f0 hfe
      refine ⟨?_, ?_⟩
      · intro p hp
        rw [hmem] at hp
        exact le_of_eq ((hbspec.1 p hp).1.symm ▸ rfl)
      · intro f hf
        rw [hfat] at hf
        injection hf with hf
        subst hf
        refine ⟨by omega, by rw [hf1]; exact hf3, ?_⟩
        intro p hp
        rw [hmem] at hp
        right
        exact ⟨by rw [(hbspec.1 p hp).1, hf1], hf4 p hp⟩
    | none =>
      have hmem : (runEpochs stageFails batches (n+1) i).1
          = (runEpochBatches stageFails i batches 0).1
            ++ (runEpochs stageFails batches n (i+1)).1 := by
        simp [runEpochs, hfe]
      have hfat : (runEpochs stageFails batches (n+1) i).2
          = (runEpochs stageFails batches n (i+1)).2 := by
        simp [runEpochs, hfe]
      refine ⟨?_, ?_⟩
      · intro p hp
        rw [hmem] at hp
        rcases List.mem_append.mp hp with h | h
        · exact le_of_eq ((hbspec.1 p h).1.symm ▸ rfl)
        · have := ((ih (i+1)).1) p h
          omega
      · intro f hf
        rw [hfat] at hf
        obtain ⟨h1, h2, h3⟩ := ((ih (i+1)).2) f hf
        refine ⟨by omega, h2, ?_⟩
        intro p hp
        rw [hmem] at hp
        rcases List.mem_append.mp hp with h | h
        · left
          have := (hbspec.1 p h).1
          omega
        · exact h3 p h

/-- **C5.** If any slicing, reshaping or graph-execution stage of some training
batch fails, the process exits with status 1; the failing stage really did
fail at that (epoch, batch); and the only batches ever completed are those
strictly before the failing one in (epoch, batch) order — no retry, and no
further batch or epoch is processed after the failure. -/
theorem c5_failure_is_fatal_and_final (stageFails : Nat → Nat → Stage → Bool)
    (epochs batches i b : Nat) (s : Stage)
    (h : (runTraining stageFails epochs batches).fatal = some (i, b, s)) :
    stageFails i b s = true ∧
      (runTraining stageFails epochs batches).exitCode = 1 ∧
      ∀ p ∈ (runTraining stageFails epochs batches).processed,
        p.1 < i ∨ (p.1 = i ∧ p.2 < b) := by
  have hspec := runEpochs_spec stageFails batches epochs 0
  have hfat : (runEpochs stageFails batches epochs 0).2 = some (i, b, s) := h
  obtain ⟨_, h2, h3⟩ := hspec.2 (i, b, s) hfat
  refine ⟨firstFailure_fails h2, ?_, ?_⟩
  · show (match (runEpochs stageFails batches epochs 0).2 with
      | some _ => 1 | none => 0) = 1
    rw [hfat]
  · intro p hp
    exact h3 p hp

/-- Environment for the C5 witness: the `RunAll` stage fails at epoch 1,
batch 2, and nothing else fails. -/
def stageFailsEx : Nat → Nat → Stage → Bool :=
  fun i b s => i = 1 && b = 2 && s = Stage.runAll

/-- Witness for C5: with `stageFailsEx`, 3 epochs of 4 batches die at epoch 1,
batch 2, having completed exactly batches (0,0)...(0,3), (1,0), (1,1). -/
theorem c5_witness :
    stageFailsEx 1 2 Stage.runAll = true ∧
      (runTraining stageFailsEx 3 4).exitCode = 1 ∧
      ∀ p ∈ (runTraining stageFailsEx 3 4).processed,
        p.1 < 1 ∨ (p.1 = 1 ∧ p.2 < 2) :=
  c5_failure_is_fatal_and_final stageFailsEx 3 4 1 2 Stage.runAll (by decide)

/-! ### Evaluation loop file-creation error handling (classifier)
`src/unnamed/part_000`, per evaluation batch:

    lines 349-351 (per example j):
      f, _ := os.OpenFile(...png...)     // open error discarded via blank identifier
      png.Encode(f, img)                 // on a nil *os.File this returns ErrInvalid,
      f.Close()                          //   which is ignored: the image is simply lost
    lines 358-361:
      file, err := os.OpenFile(...csv...)                        // err bound...
      if err = xVal.(*tensor.Dense).Reshape(bs, 784); err != nil { // ...but overwritten
          log.Fatal("Unable to create csv", err)                   // before being checked
      }

So the only `log.Fatal` in this region fires on a reshape error, never on a
file-open error.  We model the environment by which opens/reshapes fail. -/

set_option linter.unusedVariables false in
/-- The scrutinised `err` of the csv block: bound to the open error, then
overwritten by the reshape error before the `err != nil` check. -/
def csvErrChecked (csvOpenFails reshapeFails : Bool) : Bool :=
  let err := csvOpenFails
  let err := reshapeFails
  err

structure EvalBatchFiles where
  imagesWritten : List Bool
  csvWritten : Bool
  fatal : Bool
deriving DecidableEq

/-- File behaviour of one classifier evaluation batch with `bs` examples:
which image files get written, whether the csv file gets written, and whether
the process dies. -/
def evalBatchFileOps (bs : Nat) (imgOpenFails : Nat → Bool)
    (csvOpenFails reshapeFails : Bool) : EvalBatchFiles :=
  { imagesWritten := (List.range bs).map (fun j => !imgOpenFails j)
    csvWritten := !csvOpenFails && !csvErrChecked csvOpenFails reshapeFails
    fatal := csvErrChecked csvOpenFails reshapeFails }

/-- **C4.** In the classifier's evaluation loop, whether the process aborts
depends only on the reshape result, never on any file-open error: image-open
errors are discarded (the image is silently lost), and the csv-open error is
overwritten before the check, so failed file creation alone gives best-effort
behaviour with lost output and never a fatal exit. -/
theorem c4_open_errors_never_fatal (bs : Nat) (imgOpenFails : Nat → Bool)
    (csvOpenFails reshapeFails : Bool) :
    (evalBatchFileOps bs imgOpenFails csvOpenFails reshapeFails).fatal
        = reshapeFails ∧
      (reshapeFails = false →
        (evalBatchFileOps bs imgOpenFails csvOpenFails reshapeFails).fatal = false) ∧
      (∀ j < bs, imgOpenFails j = true →
        (evalBatchFileOps bs imgOpenFails csvOpenFails reshapeFails).imagesWritten.getD
          j true = false) ∧
      (csvOpenFails = true →
        (evalBatchFileOps bs imgOpenFails csvOpenFails reshapeFails).csvWritten
          = false) := by
  refine ⟨rfl, ?_, ?_, ?_⟩
  · intro h
    show csvErrChecked csvOpenFails reshapeFails = false
    rw [h]
    rfl
  · intro j hj hfail
    show ((List.range bs).map (fun j => !imgOpenFails j)).getD j true = false
    rw [List.getD_eq_getElem?_getD, List.getElem?_map]
    have hjr : (List.range bs)[j]? = some j := by
      rw [List.getElem?_range hj]
    rw [hjr]
    simp [hfail]
  · intro h
    show (!csvOpenFails && !csvErrChecked csvOpenFails reshapeFails) = false
    rw [h]
    rfl

/-- Witness for C4: every open fails, the reshape succeeds; the batch loses
all its output and the process survives. -/
theorem c4_witness :
    (evalBatchFileOps 2 (fun _ => true) true false).fatal = false ∧
      (evalBatchFileOps 2 (fun _ => true) true false).imagesWritten.getD 0 true
        = false ∧
      (evalBatchFileOps 2 (fun _ => true) true false).csvWritten = false := by
  have h := c4_open_errors_never_fatal 2 (fun _ => true) true false
  exact ⟨h.2.1 rfl, h.2.2.1 0 (by decide) rfl, h.2.2.2 rfl⟩

/-! ### Arg-max label extraction (classifier evaluation)
`src/unnamed/part_000`: true label, lines 322-330, and prediction, lines
339-347 — two textually identical loops:

    for k := 0; k < 10; k++ {
        if k == 0 {
            rowLabel = 0
            yRowHigh = yRow[k]
        } else if yRow[k] > yRowHigh {
            rowLabel = k
            yRowHigh = yRow[k]
        }
    }

`argmaxScan row n` is the pair (label, high) after the iterations
`k = 0, ..., n-1`; Go's zero values give the initial pair `(0, 0)`. -/

def argmaxScan (row : Nat → ℚ) : Nat → Nat × ℚ
  | 0 => (0, 0)
  | k+1 =>
    let acc := argmaxScan row k
    if k = 0 then (0, row 0)
    else if row k > acc.2 then (k, row k)
    else acc

/-- The true-label loop (lines 322-330). -/
def rowLabelOf (yRow : Nat → ℚ) : Nat := (argmaxScan yRow 10).1

/-- The predicted-label loop (lines 339-347). -/
def rowGuessOf (predRow : Nat → ℚ) : Nat := (argmaxScan predRow 10).1

/-- Loop invariant: after `n ≥ 1` iterations, the accumulator holds the first
maximum of `row` over indices `< n`. -/
lemma argmaxScan_invariant (row : Nat → ℚ) :
    ∀ n, 1 ≤ n →
      (argmaxScan row n).1 < n ∧
      (argmaxScan row n).2 = row (argmaxScan row n).1 ∧
      (∀ j < n, row j ≤ (argmaxScan row n).2) ∧
      ∀ j < (argmaxScan row n).1, row j < (argmaxScan row n).2 := by
  intro n
  induction n with
  | zero => omega
  | succ m ih =>
    intro _
    by_cases hm : m = 0
    · subst hm
      refine ⟨by simp [argmaxScan], by simp [argmaxScan], ?_, ?_⟩
      · intro j hj
        interval_cases j
        simp [argmaxScan]
      · intro j hj
        simp [argmaxScan] at hj
    · obtain ⟨ih1, ih2, ih3, ih4⟩ := ih (by omega)
      have hstep : argmaxScan row (m+1)
          = if row m > (argmaxScan row m).2 then (m, row m) else argmaxScan row m := by
        rw [argmaxScan]
        simp [hm]
      by_cases hgt : row m > (argmaxScan row m).2
      · rw [hstep, if_pos hgt]
        refine ⟨by omega, rfl, ?_, ?_⟩
        · intro j hj
          rcases Nat.lt_succ_iff_lt_or_eq.mp hj with h | h
          · exact le_of_lt (lt_of_le_of_lt (ih3 j h) hgt)
          · subst h; exact le_refl _
        · intro j hj
          exact lt_of_le_of_lt (ih3 j hj) hgt
      · rw [hstep, if_neg hgt]
        refine ⟨by omega, ih2, ?_, ih4⟩
        intro j hj
        rcases Nat.lt_succ_iff_lt_or_eq.mp hj with h | h
        · exact ih3 j h
        · subst h; linarith [not_lt.mp hgt]

/-- **C10.** Both arg-max loops of the evaluation pass report the *least*
index attaining the row's maximum over indices 0..9: the returned label is
< 10, no entry exceeds the entry at the label, and every entry strictly
before the label is strictly below it (ties broken toward the smallest
index, because the comparison is strict). -/
theorem c10_argmax_first_max (row : Nat → ℚ) :
    (rowLabelOf row < 10 ∧
      (∀ j < 10, row j ≤ row (rowLabelOf row)) ∧
      ∀ j < rowLabelOf row, row j < row (rowLabelOf row)) ∧
    (rowGuessOf row < 10 ∧
      (∀ j < 10, row j ≤ row (rowGuessOf row)) ∧
      ∀ j < rowGuessOf row, row j < row (rowGuessOf row)) := by
  obtain ⟨h1, h2, h3, h4⟩ := argmaxScan_invariant row 10 (by omega)
  rw [h2] at h3 h4
  exact ⟨⟨h1, h3, h4⟩, ⟨h1, h3, h4⟩⟩

/-- The tie row used in the C10 witness: value 5 at indices 3 and 7, zero
elsewhere. -/
def tieRow : Nat → ℚ := fun j => if j = 3 ∨ j = 7 then 5 else 0

/-- Witness for C10 on `tieRow`: the strict comparison keeps the earlier
tied index, so everything before the reported label is strictly smaller. -/
theorem c10_witness :
    rowLabelOf tieRow < 10 ∧ ∀ j < rowLabelOf tieRow, tieRow j < tieRow (rowLabelOf tieRow) :=
  ⟨(c10_argmax_first_max tieRow).1.1, (c10_argmax_first_max tieRow).1.2.2⟩

/-- **C6.** For a one-hot target row (a single entry 1.0, all other entries
0.0), the evaluation loop's computed label is exactly the index of the 1.0
entry. -/
theorem c6_one_hot_label (yRow : Nat → ℚ) (i : Nat) (hi : i < 10)
    (hone : yRow i = 1) (hzero : ∀ j < 10, j ≠ i → yRow j = 0) :
    rowLabelOf yRow = i := by
  obtain ⟨h1, h2, h3, _⟩ := argmaxScan_invariant yRow 10 (by omega)
  rw [h2] at h3
  by_contra hne
  have hz : yRow (rowLabelOf yRow) = 0 := hzero _ h1 hne
  have := h3 i hi
  rw [hone] at this
  unfold rowLabelOf at hz
  rw [hz] at this
  norm_num at this

/-- The one-hot row used in the C6 witness: 1.0 at index 3, zero elsewhere. -/
def oneHotRow : Nat → ℚ := fun j => if j = 3 then 1 else 0

/-- Witness for C6: the label of `oneHotRow` is 3. -/
theorem c6_witness : rowLabelOf oneHotRow = 3 := by
  apply c6_one_hot_label oneHotRow 3 (by omega)
  · simp [oneHotRow]
  · intro j _ hj
    simp [oneHotRow, hj]

/-! ### Per-batch CSV output (classifier)
`src/unnamed/part_000` lines 363-374:

    var matrixToWrite [][]string
    for j := 0; j < yOutput.Shape()[0]; j++ {          // yOutput has bs rows
        row := ...                                      // row j of the softmax output
        var rowToWrite []string
        for k := 0; k < 10; k++ {
            rowToWrite = append(rowToWrite, strconv.FormatFloat(row[k], 'f', 6, 64))
        }
        matrixToWrite = append(matrixToWrite, rowToWrite)
    }
    csvWriter.WriteAll(matrixToWrite)

`strconv.FormatFloat(v, 'f', 6, 64)` is an external helper (out of scope per
the spec); `formatFloat6` models its documented fixed-point output: optional
sign, decimal integer part, '.', then exactly six fractional digits of the
value rounded at the sixth decimal. -/

def digitChar (n : Nat) : Char := Char.ofNat (48 + n % 10)

/-- The six fractional digits of `n < 10^6`, most significant first,
zero-padded. -/
def frac6 (n : Nat) : String :=
  String.mk [digitChar (n / 100000), digitChar (n / 10000), digitChar (n / 1000),
    digitChar (n / 100), digitChar (n / 10), digitChar n]

/-- Model of the external `strconv.FormatFloat(v, 'f', 6, 64)`: fixed-point,
six digits after the decimal point. -/
def formatFloat6 (v : ℚ) : String :=
  let scaled : Nat := (round (|v| * 1000000)).toNat
  (if v < 0 then "-" else "") ++ Nat.repr (scaled / 1000000) ++ "." ++ frac6 (scaled % 1000000)

/-- Row `j` of `matrixToWrite`: the inner `append` loop over `k = 0..9`. -/
def buildCSVRow (out : Nat → Nat → ℚ) (j : Nat) : List String :=
  (List.range 10).foldl (fun acc k => acc ++ [formatFloat6 (out j k)]) []

/-- `matrixToWrite` for a batch whose output tensor has `rows` rows. -/
def buildCSVMatrix (rows : Nat) (out : Nat → Nat → ℚ) : List (List String) :=
  (List.range rows).foldl (fun acc j => acc ++ [buildCSVRow out j]) []

lemma foldl_append_singleton {α β : Type} (f : α → β) :
    ∀ (l : List α) (init : List β),
      l.foldl (fun acc x => acc ++ [f x]) init = init ++ l.map f := by
  intro l
  induction l with
  | nil => intro init; simp
  | cons a t ih =>
    intro init
    simp only [List.foldl_cons, List.map_cons]
    rw [ih (init ++ [f a])]
    simp

lemma buildCSVRow_eq_map (out : Nat → Nat → ℚ) (j : Nat) :
    buildCSVRow out j = (List.range 10).map (fun k => formatFloat6 (out j k)) := by
  unfold buildCSVRow
  rw [foldl_append_singleton]
  simp

lemma buildCSVMatrix_eq_map (rows : Nat) (out : Nat → Nat → ℚ) :
    buildCSVMatrix rows out = (List.range rows).map (buildCSVRow out) := by
  unfold buildCSVMatrix
  rw [foldl_append_singleton]
  simp

/-- Every cell the formatter emits ends in a decimal point followed by
exactly six characters, each a decimal digit. -/
lemma formatFloat6_shape (v : ℚ) :
    ∃ intro frac : String, formatFloat6 v = intro ++ "." ++ frac ∧
      frac.length = 6 ∧ ∀ c ∈ frac.data, 48 ≤ c.toNat ∧ c.toNat ≤ 57 := by
  refine ⟨(if v < 0 then "-" else "")
      ++ Nat.repr ((round (|v| * 1000000)).toNat / 1000000),
    frac6 ((round (|v| * 1000000)).toNat % 1000000), rfl, rfl, ?_⟩
  intro c hc
  have hdigit : ∀ m : Nat, 48 ≤ (digitChar m).toNat ∧ (digitChar m).toNat ≤ 57 := by
    intro m
    have hm : m % 10 < 10 := Nat.mod_lt _ (by omega)
    unfold digitChar
    set r := m % 10 with hr
    interval_cases r <;> decide
  unfold frac6 at hc
  simp only [String.data] at hc
  fin_cases hc <;> exact hdigit _

/-- **C7.** For every evaluation batch of the classifier whose output tensor
has `rows` rows (the code always passes `rows = bs`), `matrixToWrite` has
exactly one row per example, each row has exactly ten entries, entry `k` of
row `j` is the formatted probability `out j k`, and every entry consists of
an integer part, a decimal point, and exactly six decimal digits. -/
theorem c7_csv_shape (rows : Nat) (out : Nat → Nat → ℚ) :
    (buildCSVMatrix rows out).length = rows ∧
      (∀ r ∈ buildCSVMatrix rows out, r.length = 10) ∧
      (∀ j < rows, ∀ k < 10,
        ((buildCSVMatrix rows out).getD j []).getD k ""
          = formatFloat6 (out j k)) ∧
      ∀ r ∈ buildCSVMatrix rows out, ∀ cell ∈ r,
        ∃ intro frac : String, cell = intro ++ "." ++ frac ∧
          frac.length = 6 ∧ ∀ c ∈ frac.data, 48 ≤ c.toNat ∧ c.toNat ≤ 57 := by
  rw [buildCSVMatrix_eq_map]
  refine ⟨by simp, ?_, ?_, ?_⟩
  · intro r hr
    obtain ⟨j, _, rfl⟩ := List.mem_map.mp hr
    rw [buildCSVRow_eq_map]
    simp
  · intro j hj k hk
    have houter : (List.map (buildCSVRow out) (List.range rows)).getD j []
        = buildCSVRow out j := by
      rw [List.getD_eq_getElem?_getD, List.getElem?_map, List.getElem?_range hj]
      simp
    rw [houter, buildCSVRow_eq_map, List.getD_eq_getElem?_getD, List.getElem?_map,
      List.getElem?_range hk]
    simp
  · intro r hr cell hcell
    obtain ⟨j, _, rfl⟩ := List.mem_map.mp hr
    rw [buildCSVRow_eq_map] at hcell
    obtain ⟨k, _, rfl⟩ := List.mem_map.mp hcell
    exact formatFloat6_shape (out j k)

/-- Witness for C7: one concrete consequence at `rows = 3`, constant output
`1/2`; additionally evaluates a cell of the instantiated matrix. -/
theorem c7_witness :
    ((buildCSVMatrix 3 (fun _ _ => 1/2)).length = 3 ∧
        ∀ r ∈ buildCSVMatrix 3 (fun _ _ => 1/2), r.length = 10) ∧
      ∀ j < 3, ∀ k < 10,
        ((buildCSVMatrix 3 (fun _ _ => 1/2)).getD j []).getD k ""
          = formatFloat6 (1/2) := by
  have h := c7_csv_shape 3 (fun _ _ => 1/2)
  exact ⟨⟨h.1, h.2.1⟩, h.2.2.1⟩

/-! ### Zero-epoch training and the evaluation pass (C8)
The training loop is `for i := 0; i < *epochs; i++ { ... }`
(`src/unnamed/part_000` line 209, `src/autoencoder/main.go` line 214): with
`epochs = 0` its body — the only place the solver mutates the learnable
parameters — never runs.  The evaluation pass does not depend on the epoch
count at all; per full test batch `b` it writes one image per example
`j < xVal.Shape()[0] = bs` (classifier line 310; the autoencoder writes an
input and an output image, lines 301 and 316) and one csv row per example
(classifier lines 365-374).  The solver update is external; it appears as
the abstract per-batch parameter transformer `step`. -/

/-- Parameters after `epochs × batches` solver steps, starting from the
initial (Glorot-initialized) values. -/
def trainedParams {P : Type} (step : P → Nat × Nat → P) (epochs batches : Nat)
    (init : P) : P :=
  (List.range epochs).foldl
    (fun p i => (List.range batches).foldl (fun q b => step q (i, b)) p) init

/-- The (batch, example) indices for which the evaluation loop writes a
per-example file: batch `b` ranges over the `N / B` full batches, `j` over the
`B` rows of the sliced-and-reshaped batch tensor. -/
def evalImageFiles (N B : Nat) : List (Nat × Nat) :=
  (List.range (N / B)).flatMap (fun b => (List.range B).map (fun j => (b, j)))

lemma evalImageFiles_length (N B : Nat) :
    (evalImageFiles N B).length = N / B * B := by
  unfold evalImageFiles
  generalize N / B = n
  induction n with
  | zero => simp
  | succ m ih =>
    rw [List.range_succ, List.flatMap_append, List.length_append, ih]
    simp [Nat.succ_mul]

/-- **C8.** With an epoch count of 0 the training loop body never runs, so the
parameters keep their initial values; and the evaluation pass (independent of
the epoch count) still emits a per-example file for every example of each of
the `N / B` full test batches, and a csv matrix with one row per example. -/
theorem c8_zero_epochs {P : Type} (step : P → Nat × Nat → P) (batches : Nat)
    (init : P) (N B : Nat) (out : Nat → Nat → ℚ) :
    trainedParams step 0 batches init = init ∧
      (evalImageFiles N B).length = N / B * B ∧
      (∀ b < N / B, ∀ j < B, (b, j) ∈ evalImageFiles N B) ∧
      (buildCSVMatrix B out).length = B := by
  refine ⟨rfl, evalImageFiles_length N B, ?_, ?_⟩
  · intro b hb j hj
    unfold evalImageFiles
    rw [List.mem_flatMap]
    exact ⟨b, List.mem_range.mpr hb, List.mem_map.mpr ⟨j, List.mem_range.mpr hj, rfl⟩⟩
  · rw [buildCSVMatrix_eq_map]
    simp

/-- Witness for C8 at concrete sizes (`N = 250`, `B = 100`, 5 scheduled
batches per epoch, numeric parameters). -/
theorem c8_witness :
    trainedParams (fun (p : Nat) _ => p + 1) 0 5 7 = 7 ∧
      (evalImageFiles 250 100).length = 250 / 100 * 100 ∧
      (∀ b < 250 / 100, ∀ j < 100, (b, j) ∈ evalImageFiles 250 100) ∧
      (buildCSVMatrix 100 (fun _ _ => 1/2)).length = 100 :=
  c8_zero_epochs (fun (p : Nat) _ => p + 1) 5 7 250 100 (fun _ _ => 1/2)

/-! ### Determinism of the parameter trajectory (C9)
Both programs call `rand.Seed(7945)` as their first action
(`src/unnamed/part_000` line 160, `src/autoencoder/main.go` line 168), so the
Glorot initialization draws from a PRNG in a fixed state; the batch schedule
is the in-order one of C1 and execution is single-threaded.  The external
initializer and solver are deterministic functions, modelled as the
parameters `initOfSeed` and `step`; the ambient entropy a run might otherwise
consume (clock, OS randomness) is an explicit argument that the program
never consults because of the constant re-seed. -/

/-- The sequence of parameter values over a whole run: the initial
Glorot-initialized parameters from the constant seed 7945, then one value
after every (epoch, batch) solver step, in schedule order. -/
def paramTrajectory {P : Type} (initOfSeed : Nat → P) (step : P → Nat × Nat → P)
    (epochs batches : Nat) (_ambientEntropy : Nat) : List P :=
  List.scanl step (initOfSeed 7945)
    ((List.range epochs).flatMap (fun i => (List.range batches).map (fun b => (i, b))))

/-- **C9.** Two runs over the same data (same deterministic initializer and
solver step, same epoch/batch counts) produce identical parameter
trajectories — after every batch, the parameter values agree — whatever
ambient entropy each run had available, because initialization is re-seeded
with the constant 7945 and the batch order is fixed. -/
theorem c9_trajectory_deterministic {P : Type} (initOfSeed : Nat → P)
    (step : P → Nat × Nat → P) (epochs batches entropy1 entropy2 : Nat) :
    paramTrajectory initOfSeed step epochs batches entropy1
      = paramTrajectory initOfSeed step epochs batches entropy2 := rfl

end StartDL
